import Mathlib

/-!
Shallow embedding of the simulation core of `agent_zero`
(`src/agent_zero/model/decisions.py`, `markets.py`, `simulate.py`,
`utils/types.py`).

Modelling conventions:
* Python floats are modelled as rationals (`ℚ`); all the arithmetic in the
  core is elementary (+, -, *, /, **, min, max), which rationals reproduce
  exactly.
* The `prices` and `demand` dictionaries are modelled as total maps
  `String → ℚ`: every world reachable by the engine carries the fixed keys
  "electricity", "hydrogen", "carbon" (resp. "electricity", "hydrogen"),
  so dictionary indexing never fails on them.
* The assumptions and policy tables are row lists; the pandas boolean-mask
  lookup (`mask.any()` + `iloc[0]`) is `List.find?` (first matching row).
* `np.inf` (the default for `max_capacity`) is modelled by an extended
  rational type `XQ`.
* Python exceptions (the `raise ValueError` on an unknown agent type) are
  modelled by `Option`: `none` is an aborted computation.
* `AgentState` objects are mutable and aliased in Python; we model the
  object arena explicitly: a `Heap` is a list of `AgentState` values and an
  agent reference is an index into it.  The Python `agents` list is a list
  of references.  In-place mutation (`ag.capacity += ...`) is `List.set` on
  the heap.
-/

namespace AgentZero

/-- One row of the assumptions table; only the columns the core consults
(`tech`, `year`, `param`, `value`) are modelled. -/
structure ARow where
  tech : String
  year : Int
  param : String
  value : ℚ
deriving Repr, DecidableEq

/-- One row of the policy table; only the columns the core consults
(`year`, `policy_type`, `value`) are modelled. -/
structure PRow where
  year : Int
  policy_type : String
  value : ℚ
deriving Repr, DecidableEq

/-- Extended rationals: `np.inf` is the default for `max_capacity`. -/
inductive XQ where
  | fin (q : ℚ)
  | inf
deriving Repr, DecidableEq

/-- `XQ.qlt c x` is the Python comparison `c < x` for finite `c`. -/
def XQ.qlt (c : ℚ) : XQ → Prop
  | .fin q => c < q
  | .inf => True

instance (c : ℚ) (x : XQ) : Decidable (XQ.qlt c x) :=
  match x with
  | .fin q => inferInstanceAs (Decidable (c < q))
  | .inf => inferInstanceAs (Decidable True)

/-- `XQ.subQ x c` is the Python subtraction `x - c` for finite `c`. -/
def XQ.subQ : XQ → ℚ → XQ
  | .fin q, c => .fin (q - c)
  | .inf, _ => .inf

/-- `XQ.minQ s x` is the Python `min(s, x)` for finite first argument. -/
def XQ.minQ (s : ℚ) : XQ → ℚ
  | .fin q => min s q
  | .inf => s

/-- `WorldState` (utils/types.py): shared world state for one year. -/
structure WorldState where
  t : Int
  prices : String → ℚ
  demand : String → ℚ
  policy : List PRow
  assumptions : List ARow
  flows : List (String × ℚ) := []
  emissions : ℚ := 0

instance : Inhabited WorldState :=
  ⟨{ t := 0, prices := fun _ => 0, demand := fun _ => 0, policy := [],
     assumptions := [] }⟩

/-- `AgentState` (utils/types.py): private per-agent state. -/
structure AgentState where
  id : String
  agent_type : String
  region : String
  sector : Option String := none
  tech : Option String := none
  capacity : ℚ := 0
  vintage : Int := 0
  cash : ℚ := 0
  horizon : Nat := 1
  params : List (String × ℚ) := []
deriving Repr, DecidableEq

instance : Inhabited AgentState :=
  ⟨{ id := "", agent_type := "", region := "" }⟩

/-- `Action` (utils/types.py).  `state_before` / `state_after` hold the
`_agent_to_dict` snapshots, which record exactly the `AgentState` fields,
so we reuse `AgentState` as the snapshot value type.  `action_inputs` is
declared in the source but never populated by the model code. -/
structure Action where
  agent_id : String
  supply : List (String × ℚ)
  invest : List (String × ℚ)
  retire : List (String × ℚ)
  emissions : ℚ
  expected_price : Option ℚ := none
  action_inputs : Option (List (String × ℚ)) := none
  state_before : Option AgentState := none
  state_after : Option AgentState := none
deriving Repr, DecidableEq

instance : Inhabited Action :=
  ⟨{ agent_id := "", supply := [], invest := [], retire := [], emissions := 0 }⟩

/-- Python `dict.get(k, d)` on a string-keyed dict modelled as an
association list. -/
def getD (m : List (String × ℚ)) (k : String) (d : ℚ) : ℚ :=
  match m.find? (fun p => p.1 == k) with
  | some p => p.2
  | none => d

/-- Functional update of a string-keyed total map: Python `d[k] = v`. -/
def updF (f : String → ℚ) (k : String) (v : ℚ) : String → ℚ :=
  fun x => if x = k then v else f x

/-- `_lookup_param` (decisions.py): first row matching `tech`, `year` and
`param`, else the stated default. -/
def lookup_param (assumptions : List ARow) (tech : String) (year : Int)
    (param : String) (default : ℚ) : ℚ :=
  match assumptions.find?
      (fun r => r.tech == tech && r.year == year && r.param == param) with
  | some r => r.value
  | none => default

/-- `_lookup_param` specialised to the one call whose default is `np.inf`
(`max_capacity`): a missing row yields `XQ.inf`. -/
def lookup_param_inf (assumptions : List ARow) (tech : String) (year : Int)
    (param : String) : XQ :=
  match assumptions.find?
      (fun r => r.tech == tech && r.year == year && r.param == param) with
  | some r => .fin r.value
  | none => .inf

/-- `_forecast_prices` (decisions.py): linear-trend forecast, one entry for
each year-offset `y` in `1..horizon`. -/
def forecast_prices (current : ℚ) (trend_param : ℚ) (horizon : Nat) : List ℚ :=
  (List.range horizon).map
    (fun y => current * (1 + trend_param * (((y + 1 : Nat) : ℚ) / (horizon : ℚ))))

/-- `_compute_npv` (decisions.py): discounted margins over the forecast,
1-indexed as in `enumerate(price_forecast, start=1)`, minus `capex` once. -/
def compute_npv (capex : ℚ) (opex : ℚ) (price_forecast : List ℚ)
    (emissions_intensity : ℚ) (carbon_price : ℚ) (discount_rate : ℚ) : ℚ :=
  ((price_forecast.enumFrom 1).foldl
    (fun npv yp =>
      npv + (yp.2 - opex - emissions_intensity * carbon_price)
              / ((1 + discount_rate) ^ yp.1))
    0) - capex

/-- The NPV computed inside the producer branch of `decide`
(decisions.py, lines 66-77): parameters looked up from the assumptions
table with their documented defaults, forecast over the agent's horizon. -/
def producer_npv (agent : AgentState) (world : WorldState) : ℚ :=
  let tech := agent.tech.getD ""
  let a := world.assumptions
  let t := world.t
  let capex := lookup_param a tech t "capex" 1000
  let opex := lookup_param a tech t "opex" 10
  let ei := lookup_param a tech t "emissions_intensity" 0
  let trend := lookup_param a tech t "trend_param" 0
  let dr := lookup_param a tech t "discount_rate" (7/100)
  compute_npv capex opex (forecast_prices (world.prices tech) trend agent.horizon)
    ei (world.prices "carbon") dr

/-- The investment amount computed in the producer branch of `decide`
(decisions.py, lines 79-82). -/
def producer_invest_amt (agent : AgentState) (world : WorldState) : ℚ :=
  let tech := agent.tech.getD ""
  let a := world.assumptions
  let t := world.t
  let invest_threshold := lookup_param a tech t "invest_threshold" 0
  let maxcap := lookup_param_inf a tech t "max_capacity"
  let invest_step := lookup_param a tech t "invest_step" 10
  if producer_npv agent world > invest_threshold ∧ XQ.qlt agent.capacity maxcap
  then XQ.minQ invest_step (XQ.subQ maxcap agent.capacity)
  else 0

/-- The Action built by the producer branch of `decide`
(decisions.py, lines 84-92).  Note the source passes neither
`expected_price` nor `action_inputs`, so both keep their `None` defaults. -/
def producer_action (agent : AgentState) (world : WorldState) : Action :=
  let tech := agent.tech.getD ""
  let ei := lookup_param world.assumptions tech world.t "emissions_intensity" 0
  let supply_amt := agent.capacity
  { agent_id := agent.id,
    supply := [(tech, supply_amt)],
    invest := [(tech, producer_invest_amt agent world)],
    retire := [(tech, 0)],
    emissions := supply_amt * ei }

/-- `decide` (decisions.py): one Action per agent; `none` models the
`raise ValueError` on an unrecognized agent type. -/
def decide (agent : AgentState) (world : WorldState) : Option Action :=
  let t := world.t
  let assumptions := world.assumptions
  let prices := world.prices
  if agent.agent_type == "Regulator" then
    some { agent_id := agent.id, supply := [], invest := [], retire := [],
           emissions := 0 }
  else if agent.agent_type == "ElectricityProducer"
      || agent.agent_type == "HydrogenProducer" then
    some (producer_action agent world)
  else if agent.agent_type == "IndustrialConsumer" then
    let ref_price := lookup_param assumptions "electricity" t "ref_price" 60
    let d_hi := lookup_param assumptions "electricity" t "demand_high"
      (world.demand "electricity")
    let d_lo := lookup_param assumptions "electricity" t "demand_low"
      ((4/5) * world.demand "electricity")
    let _consumption := if prices "electricity" < ref_price then d_hi else d_lo
    some { agent_id := agent.id, supply := [], invest := [], retire := [],
           emissions := 0 }
  else
    none

/-- Total supply of one commodity over an action list (markets.py,
lines 29-30). -/
def total_supply (actions : List Action) (commodity : String) : ℚ :=
  (actions.map (fun a => getD a.supply commodity 0)).sum

/-- `clear_markets` (markets.py): proportional price adjustment with
coefficient 0.05 and a zero floor, carbon price from the policy table,
aggregate emissions and supply flows.  `t` is unchanged here. -/
def clear_markets (world : WorldState) (actions : List Action) : WorldState :=
  let t := world.t
  let prices := world.prices
  let demand := world.demand
  let supply_e := total_supply actions "electricity"
  let supply_h := total_supply actions "hydrogen"
  let k_e : ℚ := 1/20
  let k_h : ℚ := 1/20
  let bal_e := supply_e - demand "electricity"
  let bal_h := supply_h - demand "hydrogen"
  let prices1 := updF prices "electricity"
    (max 0 (prices "electricity" + k_e * (-bal_e)))
  let prices2 := updF prices1 "hydrogen"
    (max 0 (prices1 "hydrogen" + k_h * (-bal_h)))
  let prices3 :=
    match world.policy.find?
        (fun r => r.year == t && r.policy_type == "carbon_price") with
    | some r => updF prices2 "carbon" r.value
    | none => prices2
  let total_emissions := (actions.map (fun a => a.emissions)).sum
  let flows := [("electricity_supply", supply_e), ("hydrogen_supply", supply_h)]
  { t := t, prices := prices3, demand := demand, policy := world.policy,
    assumptions := world.assumptions, flows := flows,
    emissions := total_emissions }

/-- The arena of mutable `AgentState` objects; an agent reference is an
index into it.  The Python `agents` list is a `List Nat` of references. -/
abbrev Heap := List AgentState

/-- Dereference a list of agent references. -/
def derefs (heap : Heap) (refs : List Nat) : List AgentState :=
  refs.map (fun r => heap.getD r default)

/-- The `states_before` dict comprehension in `step` (simulate.py):
`{ag.id: _agent_to_dict(ag) for ag in agents}`.  A Python dict
comprehension keeps the binding of the last occurrence of a duplicated
key, hence the search over the reversed list. -/
def dictOfAgents (agents : List AgentState) (aid : String) : Option AgentState :=
  agents.reverse.find? (fun a => a.id == aid)

/-- `next((x for x in actions if x.agent_id == ag.id), None)` in `step`. -/
def findAction (actions : List Action) (aid : String) : Option Action :=
  actions.find? (fun a => a.agent_id == aid)

/-- `next((a for a in updated_agents if a.id == act.agent_id), None)`. -/
def findAgent (agents : List AgentState) (aid : String) : Option AgentState :=
  agents.find? (fun a => a.id == aid)

/-- One iteration of the capacity-update loop in `step` (simulate.py,
lines 56-62): the in-place `ag.capacity += act.invest.get(tech, 0.0)` for
the agent stored at reference `r`, guarded by the action being found and
the agent being a producer. -/
def applyInvest (actions : List Action) (heap : Heap) (r : Nat) : Heap :=
  match heap.get? r with
  | none => heap
  | some ag =>
    match findAction actions ag.id with
    | none => heap
    | some act =>
      if ag.agent_type == "ElectricityProducer"
          || ag.agent_type == "HydrogenProducer" then
        heap.set r
          { ag with capacity := ag.capacity + getD act.invest (ag.tech.getD "") 0 }
      else heap

/-- The whole capacity-update loop of `step`, iterating over the agent
references in list order. -/
def updateCapacities (actions : List Action) (heap : Heap) (refs : List Nat) :
    Heap :=
  refs.foldl (applyInvest actions) heap

/-- The demand update of `step` (simulate.py, lines 72-82): for each traded
commodity, an assumptions row (year = t+1, param = "demand", tech =
commodity) overrides demand, otherwise demand is retained. -/
def updateDemand (assumptions : List ARow) (demand : String → ℚ)
    (t_next : Int) : String → ℚ :=
  (["electricity", "hydrogen"]).foldl
    (fun d commodity =>
      match assumptions.find?
          (fun r => r.year == t_next && r.param == "demand"
            && r.tech == commodity) with
      | some r => updF d commodity r.value
      | none => d)
    demand

/-- `step` (simulate.py): decisions, market clearing, in-place capacity
update, trace attachment, demand update, time advance.  `none` models an
aborted step (an exception escaping from `decide`).  The returned `List
Nat` is `updated_agents`: the same references, appended in the same
order. -/
def step (world : WorldState) (heap : Heap) (refs : List Nat) :
    Option (WorldState × Heap × List Nat × List Action) :=
  match (derefs heap refs).mapM (fun a => decide a world) with
  | none => none
  | some actions =>
    let world2 := clear_markets world actions
    let heap2 := updateCapacities actions heap refs
    let actions2 := actions.map (fun act =>
      { act with state_before := dictOfAgents (derefs heap refs) act.agent_id,
                 state_after := findAgent (derefs heap2 refs) act.agent_id })
    let demand2 := updateDemand world2.assumptions world2.demand (world2.t + 1)
    some
      ({ t := world2.t + 1, prices := world2.prices, demand := demand2,
         policy := world2.policy, assumptions := world2.assumptions,
         flows := world2.flows, emissions := world2.emissions },
       heap2, refs, actions2)

/-- `simulate` (simulate.py): left fold of `step` over the `years` list,
whose elements are never read; each history entry records the world after
the step, the agent list (references into the shared arena) and the traced
actions.  The final heap is returned alongside so that "reading the
history after the run" can be expressed (any dereference made after
`simulate` returns sees the final arena). -/
def simulate (world0 : WorldState) (heap0 : Heap) (refs0 : List Nat) :
    List Int → Option (List (WorldState × List Nat × List Action) × Heap)
  | [] => some ([], heap0)
  | _ :: rest =>
    match step world0 heap0 refs0 with
    | none => none
    | some (world1, heap1, refs1, actions) =>
      match simulate world1 heap1 refs1 rest with
      | none => none
      | some (hist, heapF) => some ((world1, refs1, actions) :: hist, heapF)

/-- The history component of `simulate`, with the empty run as default
(used to state theorems without naming the existential output). -/
def simHist (world0 : WorldState) (heap0 : Heap) (refs0 : List Nat)
    (years : List Int) : List (WorldState × List Nat × List Action) :=
  ((simulate world0 heap0 refs0 years).getD ([], [])).1

/-- The final arena of a `simulate` run. -/
def simHeap (world0 : WorldState) (heap0 : Heap) (refs0 : List Nat)
    (years : List Int) : Heap :=
  ((simulate world0 heap0 refs0 years).getD ([], heap0)).2

/-- The result of `step`, with a vacuous default (used to state theorems
without naming the existential output). -/
def stepRes (world : WorldState) (heap : Heap) (refs : List Nat) :
    WorldState × Heap × List Nat × List Action :=
  (step world heap refs).getD (default, [], [], [])

/-! ### Concrete inputs used by counterexamples, scenario conjuncts and
witnesses.  Prices and demand functions list the keys an engine-built
world carries. -/

/-- A price map with the three keys the engine maintains. -/
def mkPrices (e h c : ℚ) : String → ℚ :=
  fun k => if k == "electricity" then e else if k == "hydrogen" then h
    else if k == "carbon" then c else 0

/-- A demand map with the two keys the engine maintains. -/
def mkDemand (e h : ℚ) : String → ℚ :=
  fun k => if k == "electricity" then e else if k == "hydrogen" then h else 0

/-- World for the C1 counterexample: `capex` 0 makes the NPV positive,
`invest_step` 0 makes the invested amount zero anyway. -/
def c1World : WorldState :=
  { t := 2025, prices := mkPrices 50 3 0, demand := mkDemand 100 10,
    policy := [],
    assumptions := [⟨"electricity", 2025, "capex", 0⟩,
                    ⟨"electricity", 2025, "invest_step", 0⟩] }

/-- Electricity producer for the C1 counterexample. -/
def c1Agent : AgentState :=
  { id := "EGEN1", agent_type := "ElectricityProducer", region := "AUS",
    tech := some "electricity", capacity := 0, horizon := 1 }

/-- World for the C2 scenario: every producer parameter at its default
(empty assumptions table), electricity price 50, carbon price 0. -/
def c2World : WorldState :=
  { t := 2025, prices := mkPrices 50 3 0, demand := mkDemand 100 10,
    policy := [], assumptions := [] }

/-- Electricity producer for the C2 scenario, horizon 3. -/
def c2Agent : AgentState :=
  { id := "EGEN1", agent_type := "ElectricityProducer", region := "AUS",
    tech := some "electricity", capacity := 100, horizon := 3 }

/-- World for the C3 concrete market-clearing check: electricity price 50,
electricity demand 80. -/
def c3World : WorldState :=
  { t := 2025, prices := mkPrices 50 3 0, demand := mkDemand 80 10,
    policy := [], assumptions := [] }

/-- Actions supplying 100 units of electricity in total. -/
def c3Actions : List Action :=
  [{ agent_id := "EGEN1", supply := [("electricity", 100)],
     invest := [("electricity", 0)], retire := [("electricity", 0)],
     emissions := 0 }]

/-- A regulator agent, used to instantiate universally quantified
theorems. -/
def regAgent : AgentState :=
  { id := "REG", agent_type := "Regulator", region := "AUS" }

end AgentZero


namespace AgentZero

/-- C3: for every world state and action list, `clear_markets` sets the new
electricity and hydrogen prices to
`max 0 (old_price + 0.05 * (demand - total_supply))`, with the demand and
supply of the respective commodity; with total electricity supply 100,
electricity demand 80 and electricity price 50, the new electricity price
is exactly 49. -/
theorem c3_price_update (world : WorldState) (actions : List Action) :
    ((clear_markets world actions).prices "electricity"
        = max 0 (world.prices "electricity"
            + (1/20) * (world.demand "electricity"
                - total_supply actions "electricity")))
    ∧ ((clear_markets world actions).prices "hydrogen"
        = max 0 (world.prices "hydrogen"
            + (1/20) * (world.demand "hydrogen"
                - total_supply actions "hydrogen")))
    ∧ (clear_markets c3World c3Actions).prices "electricity" = 49 := by
  refine ⟨?_, ?_, ?_⟩
  · simp only [clear_markets]
    rcases h : world.policy.find?
        (fun r => r.year == world.t && r.policy_type == "carbon_price") with
      _ | r <;>
      simp [h, updF]
  · simp only [clear_markets]
    rcases h : world.policy.find?
        (fun r => r.year == world.t && r.policy_type == "carbon_price") with
      _ | r <;>
      simp [h, updF]
  · simp [clear_markets, c3World, c3Actions, total_supply, getD, mkPrices,
      mkDemand, updF, List.find?]
    norm_num

/-- The 1-indexed accumulation loop of `_compute_npv`, written as a closed
sum over forecast positions. -/
lemma foldl_enumFrom_npv (opex ei cp dr : ℚ) :
    ∀ (l : List ℚ) (n : Nat) (init : ℚ),
      List.foldl
          (fun npv yp => npv + (yp.2 - opex - ei * cp) / ((1 + dr) ^ yp.1))
          init (l.enumFrom n)
        = init + ∑ i ∈ Finset.range l.length,
            (l.getD i 0 - opex - ei * cp) / ((1 + dr) ^ (n + i))
  | [], n, init => by simp
  | p :: rest, n, init => by
    rw [show (p :: rest).enumFrom n = (n, p) :: rest.enumFrom (n + 1) from rfl,
      List.foldl_cons, foldl_enumFrom_npv opex ei cp dr rest (n + 1) _,
      List.length_cons, Finset.sum_range_succ']
    simp only [List.getD_cons_succ, List.getD_cons_zero, Nat.add_zero]
    rw [Finset.sum_congr rfl
      (fun i _ => by rw [show n + 1 + i = n + (i + 1) from by omega])]
    ring

/-- `_compute_npv` as a closed discounted sum: position `i` of the forecast
is year-offset `i + 1`. -/
lemma compute_npv_eq_sum (capex opex : ℚ) (fc : List ℚ) (ei cp dr : ℚ) :
    compute_npv capex opex fc ei cp dr
      = (∑ i ∈ Finset.range fc.length,
          (fc.getD i 0 - opex - ei * cp) / ((1 + dr) ^ (i + 1))) - capex := by
  unfold compute_npv
  rw [foldl_enumFrom_npv]
  rw [Finset.sum_congr rfl
    (fun i _ => by rw [show 1 + i = i + 1 from by omega])]
  ring

/-- Position `i` of the linear-trend forecast. -/
lemma forecast_prices_getD (current trend : ℚ) (H i : Nat) (h : i < H) :
    (forecast_prices current trend H).getD i 0
      = current * (1 + trend * (((i : ℚ) + 1) / (H : ℚ))) := by
  unfold forecast_prices
  rw [List.getD_eq_getElem?_getD, List.getElem?_map, List.getElem?_range h]
  push_cast
  rfl

/-- For a producer agent, `decide` returns exactly the producer Action. -/
lemma decide_producer {agent : AgentState} (world : WorldState)
    (h : agent.agent_type = "ElectricityProducer"
        ∨ agent.agent_type = "HydrogenProducer") :
    decide agent world = some (producer_action agent world) := by
  rcases h with h | h <;> simp [decide, h]

/-- Every Action built by `decide` carries the deciding agent's id. -/
lemma decide_agent_id {agent : AgentState} {world : WorldState} {act : Action}
    (h : decide agent world = some act) : act.agent_id = agent.id := by
  unfold decide at h
  split_ifs at h <;> simp at h <;> exact h ▸ rfl

/-- C1 (amended): for every producer agent, the invest entry for the
agent's tech equals `min(invest_step, max_capacity - capacity)` when
`npv > invest_threshold` and `capacity < max_capacity`, and 0 otherwise;
the entry is positive iff that condition holds and additionally
`invest_step > 0`. -/
theorem c1_invest_rule (agent : AgentState) (world : WorldState)
    (hty : agent.agent_type = "ElectricityProducer"
        ∨ agent.agent_type = "HydrogenProducer") :
    (decide agent world).isSome = true
    ∧ getD ((decide agent world).getD default).invest (agent.tech.getD "") 0
        = producer_invest_amt agent world
    ∧ producer_invest_amt agent world
        = (if producer_npv agent world
              > lookup_param world.assumptions (agent.tech.getD "") world.t
                  "invest_threshold" 0
            ∧ XQ.qlt agent.capacity
                (lookup_param_inf world.assumptions (agent.tech.getD "")
                  world.t "max_capacity")
          then XQ.minQ
              (lookup_param world.assumptions (agent.tech.getD "") world.t
                "invest_step" 10)
              (XQ.subQ
                (lookup_param_inf world.assumptions (agent.tech.getD "")
                  world.t "max_capacity")
                agent.capacity)
          else 0)
    ∧ (0 < producer_invest_amt agent world
        ↔ (producer_npv agent world
            > lookup_param world.assumptions (agent.tech.getD "") world.t
                "invest_threshold" 0)
          ∧ XQ.qlt agent.capacity
              (lookup_param_inf world.assumptions (agent.tech.getD "")
                world.t "max_capacity")
          ∧ 0 < lookup_param world.assumptions (agent.tech.getD "") world.t
              "invest_step" 10) := by
  rw [decide_producer world hty]
  refine ⟨rfl, ?_, rfl, ?_⟩
  · simp [producer_action, getD]
  · simp only [producer_invest_amt]
    split_ifs with hc
    · rcases hc with ⟨h1, h2⟩
      simp only [h1, h2, true_and]
      rcases hm : lookup_param_inf world.assumptions (agent.tech.getD "")
          world.t "max_capacity" with q | _
      · rw [hm] at h2
        have hq : agent.capacity < q := h2
        simp only [XQ.subQ, XQ.minQ, lt_min_iff, sub_pos, hq, and_true]
      · simp [XQ.subQ, XQ.minQ]
    · constructor
      · intro h0
        exact absurd h0 (lt_irrefl 0)
      · rintro ⟨a, b, -⟩
        exact absurd ⟨a, b⟩ hc

/-- Witness for C1: the amended rule applied to a concrete electricity
producer. -/
theorem c1_witness :
    (decide c1Agent c1World).isSome = true
    ∧ getD ((decide c1Agent c1World).getD default).invest
        (c1Agent.tech.getD "") 0 = producer_invest_amt c1Agent c1World := by
  have h := c1_invest_rule c1Agent c1World (Or.inl rfl)
  exact ⟨h.1, h.2.1⟩

/-- C1 counterexample: with `capex` 0 (so the NPV is positive) and
`invest_step` 0 in the assumptions table, the claim's condition
(`npv > invest_threshold` and `capacity < max_capacity`) holds, yet the
invested amount is 0, not positive. -/
theorem c1_counterexample :
    (producer_npv c1Agent c1World
        > lookup_param c1World.assumptions "electricity" c1World.t
            "invest_threshold" 0)
    ∧ XQ.qlt c1Agent.capacity
        (lookup_param_inf c1World.assumptions "electricity" c1World.t
          "max_capacity")
    ∧ (decide c1Agent c1World).isSome = true
    ∧ ¬ (0 < getD ((decide c1Agent c1World).getD default).invest
          "electricity" 0) := by
  refine ⟨?_, ?_, rfl, ?_⟩
  · have hthr : lookup_param c1World.assumptions "electricity" c1World.t
        "invest_threshold" 0 = 0 := by
      simp [lookup_param, c1World, List.find?]
    rw [hthr]
    simp [producer_npv, c1Agent, c1World, lookup_param, forecast_prices,
      compute_npv, mkPrices, List.enumFrom, List.find?, List.range,
      List.range.loop]
    norm_num
  · have hmax : lookup_param_inf c1World.assumptions "electricity" c1World.t
        "max_capacity" = XQ.inf := by
      simp [lookup_param_inf, c1World, List.find?]
    rw [hmax]
    trivial
  · have hz : getD (((decide c1Agent c1World).getD default).invest)
        "electricity" 0 = 0 := by
      simp [decide, c1Agent, c1World, producer_action, producer_invest_amt,
        producer_npv, lookup_param, lookup_param_inf, forecast_prices,
        compute_npv, mkPrices, getD, XQ.minQ, XQ.subQ, XQ.qlt,
        List.enumFrom, List.find?, List.range, List.range.loop]
    rw [hz]
    exact lt_irrefl 0

/-- C6: the carbon price after `clear_markets` is the value of the first
policy row with the current year and policy_type "carbon_price" when such a
row exists, and the input world's carbon price unchanged otherwise. -/
theorem c6_carbon_price (world : WorldState) (actions : List Action) :
    (clear_markets world actions).prices "carbon"
      = match world.policy.find?
            (fun r => r.year == world.t && r.policy_type == "carbon_price") with
        | some r => r.value
        | none => world.prices "carbon" := by
  simp only [clear_markets]
  rcases h : world.policy.find?
      (fun r => r.year == world.t && r.policy_type == "carbon_price") with
    _ | r <;>
    simp [h, updF]

/-- The exact rational value of the NPV in the C2 all-defaults scenario:
`40 * (1/1.07 + 1/1.07^2 + 1/1.07^3) - 1000`. -/
lemma c2_npv_value : producer_npv c2Agent c2World = -1096447000/1225043 := by
  simp [producer_npv, c2Agent, c2World, lookup_param, forecast_prices,
    compute_npv, mkPrices, List.enumFrom, List.find?, List.range,
    List.range.loop]
  norm_num

/-- C2: the price forecast lists `current * (1 + trend * (y / H))` for
year-offsets `y = 1..H`; the NPV is the sum of the forecast margins
discounted by `(1 + discount_rate)^y` minus `capex` once, undiscounted; in
the all-defaults scenario (capex 1000, opex 10, zero emissions intensity
and trend, discount rate 0.07, horizon 3, electricity price 50, carbon
price 0) the NPV is negative, within 0.01 of -895.03, and the invested
amount is 0. -/
theorem c2_forecast_and_npv :
    (∀ current trend : ℚ, ∀ H y : Nat, 1 ≤ y → y ≤ H →
        (forecast_prices current trend H).getD (y - 1) 0
          = current * (1 + trend * ((y : ℚ) / (H : ℚ))))
    ∧ (∀ current trend : ℚ, ∀ H : Nat,
        (forecast_prices current trend H).length = H)
    ∧ (∀ capex opex ei cp dr : ℚ, ∀ fc : List ℚ,
        compute_npv capex opex fc ei cp dr
          = (∑ i ∈ Finset.range fc.length,
              (fc.getD i 0 - opex - ei * cp) / ((1 + dr) ^ (i + 1))) - capex)
    ∧ producer_npv c2Agent c2World < 0
    ∧ |producer_npv c2Agent c2World + 89503/100| < 1/100
    ∧ getD (((decide c2Agent c2World).getD default).invest) "electricity" 0
        = 0 := by
  refine ⟨?_, ?_, ?_, ?_, ?_, ?_⟩
  · intro current trend H y h1 hyH
    have h : y - 1 < H := by omega
    rw [forecast_prices_getD current trend H (y - 1) h]
    have hc : ((y - 1 : Nat) : ℚ) + 1 = (y : ℚ) := by
      rw [Nat.cast_sub h1, Nat.cast_one]
      ring
    rw [hc]
  · intro current trend H
    simp [forecast_prices]
  · intro capex opex ei cp dr fc
    exact compute_npv_eq_sum capex opex fc ei cp dr
  · rw [c2_npv_value]
    norm_num
  · rw [c2_npv_value]
    rw [abs_lt]
    norm_num
  · rw [decide_producer c2World (Or.inl rfl)]
    have hta : c2Agent.tech.getD "" = "electricity" := rfl
    have hiz : producer_invest_amt c2Agent c2World = 0 := by
      simp only [producer_invest_amt]
      rw [if_neg]
      rintro ⟨h1, -⟩
      rw [c2_npv_value] at h1
      have hthr : lookup_param c2World.assumptions (c2Agent.tech.getD "")
          c2World.t "invest_threshold" 0 = 0 := by
        simp [lookup_param, c2World, List.find?]
      rw [hthr] at h1
      norm_num at h1
    simp [producer_action, getD, hta, hiz]

/-- Witness for C2: the forecast formula applied at `y = 2`, `H = 3`. -/
theorem c2_witness :
    (forecast_prices 50 0 3).getD (2 - 1) 0
      = 50 * (1 + 0 * (((2 : Nat) : ℚ) / ((3 : Nat) : ℚ))) :=
  c2_forecast_and_npv.1 50 0 3 2 (by norm_num) (by norm_num)

/-- C8 (code behavior): the producer branch of `decide` constructs its
Action without passing `expected_price`, so the returned Action carries
`None` even for a producer whose forecast is non-empty; the spec and the
repository's own tests expect the forecast head instead. -/
theorem c8_expected_price_is_none :
    (decide c2Agent c2World).isSome = true
    ∧ ((decide c2Agent c2World).getD default).expected_price = none
    ∧ ((decide c2Agent c2World).getD default).action_inputs = none
    ∧ (forecast_prices (c2World.prices "electricity")
        (lookup_param c2World.assumptions "electricity" c2World.t
          "trend_param" 0)
        c2Agent.horizon).getD 0 0 = 50 := by
  refine ⟨rfl, rfl, rfl, ?_⟩
  simp [forecast_prices, lookup_param, c2World, c2Agent, mkPrices,
    List.find?, List.range, List.range.loop]

/-- C9: `decide` aborts exactly on an unrecognized agent type, and a
parameter lookup with no matching assumptions row falls back to the given
default instead of raising. -/
theorem c9_decide_totality (agent : AgentState) (world : WorldState) :
    ((decide agent world).isSome = true
      ↔ agent.agent_type ∈ ["Regulator", "ElectricityProducer",
          "HydrogenProducer", "IndustrialConsumer"])
    ∧ (∀ assumptions : List ARow, ∀ tech : String, ∀ year : Int,
        ∀ param : String, ∀ dflt : ℚ,
        assumptions.find?
            (fun r => r.tech == tech && r.year == year && r.param == param)
          = none →
        lookup_param assumptions tech year param dflt = dflt) := by
  constructor
  · unfold decide
    split_ifs with h1 h2 h3 <;>
      simp_all [Bool.or_eq_true, List.mem_cons] <;> tauto
  · intro assumptions tech year param dflt h
    simp [lookup_param, h]

/-- Witness for C9: a lookup in the empty assumptions table returns the
default. -/
theorem c9_witness : lookup_param [] "solar" 2030 "capex" 5 = 5 :=
  (c9_decide_totality regAgent c2World).2 [] "solar" 2030 "capex" 5 rfl

/-- Looking up a mapped list at an in-range position. -/
lemma map_getD_of_lt {α β : Type _} (f : α → β) (l : List α) (i : Nat)
    (d : α) (e : β) (hi : i < l.length) :
    (l.map f).getD i e = f (l.getD i d) := by
  rw [List.getD_eq_getElem?_getD, List.getElem?_map,
    List.getElem?_eq_getElem hi, List.getD_eq_getElem?_getD,
    List.getElem?_eq_getElem hi]
  rfl

/-- An in-range `getD` element is a member of the list. -/
lemma getD_mem_of_lt {α : Type _} (l : List α) (i : Nat) (d : α)
    (hi : i < l.length) : l.getD i d ∈ l := by
  rw [List.getD_eq_getElem?_getD, List.getElem?_eq_getElem hi]
  exact List.getElem_mem hi

/-- Dereferencing the reference list at an in-range position. -/
lemma derefs_getD (heap : Heap) (refs : List Nat) (i : Nat)
    (hi : i < refs.length) :
    (derefs heap refs).getD i default = heap.getD (refs.getD i 0) default := by
  unfold derefs
  exact map_getD_of_lt _ refs i 0 default hi

/-- `applyInvest` preserves the arena size. -/
lemma applyInvest_length (actions : List Action) (heap : Heap) (r : Nat) :
    (applyInvest actions heap r).length = heap.length := by
  unfold applyInvest
  split
  · rfl
  · split
    · rfl
    · split_ifs
      · exact List.length_set heap r _
      · rfl

/-- `applyInvest` touches no cell but the one it is applied to. -/
lemma applyInvest_getElem?_ne (actions : List Action) (heap : Heap)
    (r r' : Nat) (hne : r' ≠ r) :
    (applyInvest actions heap r)[r']? = heap[r']? := by
  unfold applyInvest
  split
  · rfl
  · split
    · rfl
    · split_ifs
      · exact List.getElem?_set_ne (Ne.symm hne)
      · rfl

/-- The capacity-update loop leaves every cell outside the reference list
unchanged. -/
lemma updateCapacities_getElem?_not_mem (actions : List Action) :
    ∀ (rs : List Nat) (heap : Heap) (r' : Nat), r' ∉ rs →
      (updateCapacities actions heap rs)[r']? = heap[r']?
  | [], _, _, _ => rfl
  | r :: rest, heap, r', h => by
      rw [show updateCapacities actions heap (r :: rest)
            = updateCapacities actions (applyInvest actions heap r) rest
          from rfl]
      rw [updateCapacities_getElem?_not_mem actions rest _ r'
        (fun hm => h (List.mem_cons_of_mem r hm))]
      exact applyInvest_getElem?_ne actions heap r r'
        (fun he => h (he ▸ List.mem_cons_self r rest))

/-- The value the capacity-update loop writes into one agent's cell: the
in-place `ag.capacity += act.invest.get(tech, 0.0)` of simulate.py, for the
action found by the agent's id, guarded by the producer check. -/
def investedCell (actions : List Action) (ag : AgentState) : AgentState :=
  match findAction actions ag.id with
  | none => ag
  | some act =>
    if ag.agent_type == "ElectricityProducer"
        || ag.agent_type == "HydrogenProducer" then
      { ag with capacity := ag.capacity + getD act.invest (ag.tech.getD "") 0 }
    else ag

/-- `applyInvest` writes exactly the invested cell at the cell it targets. -/
lemma applyInvest_getElem?_self (actions : List Action) (heap : Heap)
    (r : Nat) (ag : AgentState) (hget : heap[r]? = some ag) :
    (applyInvest actions heap r)[r]? = some (investedCell actions ag) := by
  have hr : r < heap.length := by
    rcases List.getElem?_eq_some_iff.mp hget with ⟨hlt, -⟩
    exact hlt
  have hget' : heap.get? r = some ag := by
    rw [List.get?_eq_getElem?, hget]
  unfold applyInvest investedCell
  simp only [hget']
  rcases hf : findAction actions ag.id with _ | act <;> simp only [hf]
  · exact hget
  · split_ifs
    · rw [List.getElem?_set_self]
      simp [hr]
    · exact hget

/-- The capacity-update loop, read at a referenced cell: for a duplicate-free
reference list, the cell holds exactly its own invested value. -/
lemma updateCapacities_getElem?_mem (actions : List Action) :
    ∀ (rs : List Nat) (heap : Heap) (r : Nat) (ag : AgentState),
      rs.Nodup → r ∈ rs → heap[r]? = some ag →
      (updateCapacities actions heap rs)[r]? = some (investedCell actions ag)
  | [], _, _, _, _, hmem, _ => absurd hmem (List.not_mem_nil _)
  | r0 :: rest, heap, r, ag, hnd, hmem, hget => by
      rw [show updateCapacities actions heap (r0 :: rest)
            = updateCapacities actions (applyInvest actions heap r0) rest
          from rfl]
      rcases List.mem_cons.mp hmem with heq | hmem'
      · subst heq
        have hnotin : r ∉ rest := (List.nodup_cons.mp hnd).1
        rw [updateCapacities_getElem?_not_mem actions rest _ r hnotin]
        exact applyInvest_getElem?_self actions heap r ag hget
      · have hne : r ≠ r0 := by
          rintro rfl
          exact (List.nodup_cons.mp hnd).1 hmem'
        have hget' : (applyInvest actions heap r0)[r]? = some ag := by
          rw [applyInvest_getElem?_ne actions heap r0 r hne]
          exact hget
        exact updateCapacities_getElem?_mem actions rest _ r ag
          (List.nodup_cons.mp hnd).2 hmem' hget'

/-- Evaluating the invested cell when the action is found and the agent is
a producer. -/
lemma investedCell_producer {actions : List Action} {ag : AgentState}
    {act : Action} (hf : findAction actions ag.id = some act)
    (hty : ag.agent_type = "ElectricityProducer"
        ∨ ag.agent_type = "HydrogenProducer") :
    investedCell actions ag
      = { ag with
          capacity := ag.capacity + getD act.invest (ag.tech.getD "") 0 } := by
  unfold investedCell
  rw [hf]
  rcases hty with h | h <;> simp [h]

/-- A successful `mapM` of `decide` over the agent list: lengths agree,
each position holds the corresponding decision, and the action ids mirror
the agent ids. -/
lemma mapM_decide_spec {world : WorldState} :
    ∀ {ags : List AgentState} {acts : List Action},
      ags.mapM (fun a => decide a world) = some acts →
      acts.length = ags.length
      ∧ (∀ i, i < ags.length →
          decide (ags.getD i default) world = some (acts.getD i default))
      ∧ acts.map (fun a => a.agent_id) = ags.map (fun a => a.id)
  | [], acts, h => by
      rw [List.mapM_nil] at h
      cases h
      exact ⟨rfl, fun i hi => absurd hi (Nat.not_lt_zero i), rfl⟩
  | a :: ags, acts, h => by
      rw [List.mapM_cons] at h
      rcases hb : decide a world with _ | b <;> rw [hb] at h
      · simp at h
      · rcases hl : ags.mapM (fun x => decide x world) with _ | bs <;>
          rw [hl] at h
        · simp at h
        · simp only [Option.pure_def, Option.bind_eq_bind, Option.some_bind,
            Option.some.injEq] at h
          subst h
          obtain ⟨hlen, hidx, hmap⟩ := mapM_decide_spec hl
          refine ⟨by simp [hlen], ?_, ?_⟩
          · intro i hi
            cases i with
            | zero => simpa using hb
            | succ j =>
                simp only [List.getD_cons_succ]
                exact hidx j (by simpa using hi)
          · simp [hmap, decide_agent_id hb]

/-- In a duplicate-free action list, searching by the id of the `i`-th
action finds exactly that action. -/
lemma findAction_getD (acts : List Action) :
    ∀ (i : Nat), i < acts.length →
      (acts.map (fun a => a.agent_id)).Nodup →
      findAction acts ((acts.getD i default).agent_id)
        = some (acts.getD i default) := by
  induction acts with
  | nil => intro i hi _; cases hi
  | cons a rest ih =>
      intro i hi hnd
      have hnd' : (a.agent_id :: rest.map (fun x => x.agent_id)).Nodup := by
        simpa using hnd
      cases i with
      | zero =>
          simp only [List.getD_cons_zero]
          unfold findAction
          rw [List.find?_cons_of_pos]
          simp
      | succ j =>
          have hj : j < rest.length := by simpa using hi
          simp only [List.getD_cons_succ]
          unfold findAction
          have hmem : (rest.getD j default).agent_id
              ∈ rest.map (fun x => x.agent_id) := by
            rw [List.mem_map]
            exact ⟨rest.getD j default, getD_mem_of_lt rest j default hj, rfl⟩
          have hne : a.agent_id ≠ (rest.getD j default).agent_id := by
            intro he
            have h1 := (List.nodup_cons.mp hnd').1
            rw [he] at h1
            exact h1 hmem
          rw [List.find?_cons_of_neg]
          · exact ih j hj (List.nodup_cons.mp hnd').2
          · simpa using hne

/-- Both traded-commodity prices leave `clear_markets` under the zero
floor. -/
lemma clear_markets_prices_nonneg (world : WorldState) (actions : List Action) :
    0 ≤ (clear_markets world actions).prices "electricity"
    ∧ 0 ≤ (clear_markets world actions).prices "hydrogen" := by
  constructor <;>
    (simp only [clear_markets]
     rcases h : world.policy.find?
        (fun r => r.year == world.t && r.policy_type == "carbon_price") with
      _ | r <;>
      simp [h, updF, le_max_iff])

/-- Anatomy of a successful `step`: the decisions it took, the advanced
time, the cleared prices, the updated arena, the unchanged reference list
and the traced actions. -/
lemma step_spec {world : WorldState} {heap : Heap} {refs : List Nat}
    {out : WorldState × Heap × List Nat × List Action}
    (h : step world heap refs = some out) :
    ∃ actions : List Action,
      (derefs heap refs).mapM (fun a => decide a world) = some actions
      ∧ out.1.t = world.t + 1
      ∧ out.1.prices = (clear_markets world actions).prices
      ∧ out.2.1 = updateCapacities actions heap refs
      ∧ out.2.2.1 = refs
      ∧ out.2.2.2 = actions.map (fun act =>
          { act with
            state_before := dictOfAgents (derefs heap refs) act.agent_id,
            state_after := findAgent
              (derefs (updateCapacities actions heap refs) refs)
              act.agent_id }) := by
  unfold step at h
  rcases hm : (derefs heap refs).mapM (fun a => decide a world) with _ | actions <;>
    rw [hm] at h
  · cases h
  · cases h
    exact ⟨actions, rfl, rfl, rfl, rfl, rfl, rfl⟩

/-- Master induction over a `simulate` run: length of the history, time
stamps, shared reference lists and the price floor, entry by entry. -/
lemma simulate_spec :
    ∀ (years : List Int) (world0 : WorldState) (heap0 : Heap)
      (refs0 : List Nat) (hist : List (WorldState × List Nat × List Action))
      (heapF : Heap),
      simulate world0 heap0 refs0 years = some (hist, heapF) →
      hist.length = years.length
      ∧ ∀ i, i < hist.length →
          (hist.getD i default).1.t = world0.t + (i : Int) + 1
          ∧ (hist.getD i default).2.1 = refs0
          ∧ 0 ≤ (hist.getD i default).1.prices "electricity"
          ∧ 0 ≤ (hist.getD i default).1.prices "hydrogen"
  | [], w, h0, r0, hist, hf, hsim => by
      unfold simulate at hsim
      cases hsim
      exact ⟨rfl, fun i hi => absurd hi (by simp)⟩
  | y :: rest, w, h0, r0, hist, hf, hsim => by
      unfold simulate at hsim
      rcases hstep : step w h0 r0 with _ | out <;> rw [hstep] at hsim
      · cases hsim
      · obtain ⟨w1, h1, r1, acts⟩ := out
        rcases hsim2 : simulate w1 h1 r1 rest with _ | ⟨hist', heapF'⟩ <;>
          simp only [hsim2, Option.some.injEq, Prod.mk.injEq] at hsim
        · exact Option.noConfusion hsim
        · obtain ⟨hhist, hhf⟩ := hsim
          subst hhist
          obtain ⟨actions, -, ht, hp, -, hrefs, -⟩ := step_spec hstep
          obtain ⟨hlen', hprops'⟩ :=
            simulate_spec rest w1 h1 r1 hist' heapF' hsim2
          refine ⟨by simp [hlen'], ?_⟩
          intro i hi
          cases i with
          | zero =>
              refine ⟨?_, ?_, ?_, ?_⟩
              · simpa using ht
              · simpa using hrefs
              · simp only [List.getD_cons_zero]
                rw [hp]
                exact (clear_markets_prices_nonneg w actions).1
              · simp only [List.getD_cons_zero]
                rw [hp]
                exact (clear_markets_prices_nonneg w actions).2
          | succ j =>
              have hj : j < hist'.length := by simpa using hi
              obtain ⟨ht', hr', he', hh'⟩ := hprops' j hj
              refine ⟨?_, ?_, ?_, ?_⟩
              · simp only [List.getD_cons_succ]
                rw [ht', ht]
                push_cast
                ring
              · simpa using hr'.trans hrefs
              · simpa using he'
              · simpa using hh'

/-- C4: a `simulate` run takes exactly `len(years)` steps and the world of
history entry `i` has `t = start_year + i + 1`, whatever the literal values
in `years`; each successful `step` advances `t` by exactly 1. -/
theorem c4_time_advance (world0 : WorldState) (heap0 : Heap)
    (refs0 : List Nat) (years : List Int)
    (h : (simulate world0 heap0 refs0 years).isSome = true) :
    (simHist world0 heap0 refs0 years).length = years.length
    ∧ (∀ i, i < (simHist world0 heap0 refs0 years).length →
        ((simHist world0 heap0 refs0 years).getD i default).1.t
          = world0.t + (i : Int) + 1)
    ∧ (∀ (w : WorldState) (hp : Heap) (rf : List Nat),
        (step w hp rf).isSome = true → (stepRes w hp rf).1.t = w.t + 1) := by
  obtain ⟨⟨hist, heapF⟩, heq⟩ := Option.isSome_iff_exists.mp h
  have hs := simulate_spec years world0 heap0 refs0 hist heapF heq
  have hh : simHist world0 heap0 refs0 years = hist := by
    simp [simHist, heq]
  rw [hh]
  refine ⟨hs.1, fun i hi => (hs.2 i hi).1, ?_⟩
  intro w hp rf hstep
  obtain ⟨out, heq2⟩ := Option.isSome_iff_exists.mp hstep
  obtain ⟨actions, -, ht, -⟩ := step_spec heq2
  have hout : stepRes w hp rf = out := by simp [stepRes, heq2]
  rw [hout]
  exact ht

/-- C7: every world in the history of any `simulate` run keeps both traded
prices nonnegative, whatever the imbalance. -/
theorem c7_price_floor (world0 : WorldState) (heap0 : Heap)
    (refs0 : List Nat) (years : List Int) (i : Nat)
    (h : (simulate world0 heap0 refs0 years).isSome = true)
    (hi : i < (simHist world0 heap0 refs0 years).length) :
    0 ≤ ((simHist world0 heap0 refs0 years).getD i default).1.prices
        "electricity"
    ∧ 0 ≤ ((simHist world0 heap0 refs0 years).getD i default).1.prices
        "hydrogen" := by
  obtain ⟨⟨hist, heapF⟩, heq⟩ := Option.isSome_iff_exists.mp h
  have hs := simulate_spec years world0 heap0 refs0 hist heapF heq
  have hh : simHist world0 heap0 refs0 years = hist := by
    simp [simHist, heq]
  rw [hh] at hi ⊢
  exact ⟨(hs.2 i hi).2.2.1, (hs.2 i hi).2.2.2⟩

/-- C10: every history entry of a `simulate` run carries the same agent
list (the same references, element by element) as every other entry — the
very references of the initial agent list — so dereferencing any entry
after the run reads the final arena, i.e. the post-run capacities. -/
theorem c10_history_aliasing (world0 : WorldState) (heap0 : Heap)
    (refs0 : List Nat) (years : List Int)
    (h : (simulate world0 heap0 refs0 years).isSome = true) :
    (∀ i, i < (simHist world0 heap0 refs0 years).length →
        ((simHist world0 heap0 refs0 years).getD i default).2.1 = refs0)
    ∧ (∀ i j, i < (simHist world0 heap0 refs0 years).length →
        j < (simHist world0 heap0 refs0 years).length →
        ((simHist world0 heap0 refs0 years).getD i default).2.1
          = ((simHist world0 heap0 refs0 years).getD j default).2.1)
    ∧ (∀ i, i < (simHist world0 heap0 refs0 years).length →
        derefs (simHeap world0 heap0 refs0 years)
            (((simHist world0 heap0 refs0 years).getD i default).2.1)
          = derefs (simHeap world0 heap0 refs0 years) refs0) := by
  obtain ⟨⟨hist, heapF⟩, heq⟩ := Option.isSome_iff_exists.mp h
  have hs := simulate_spec years world0 heap0 refs0 hist heapF heq
  have hh : simHist world0 heap0 refs0 years = hist := by
    simp [simHist, heq]
  rw [hh]
  refine ⟨fun i hi => (hs.2 i hi).2.1, ?_, ?_⟩
  · intro i j hi hj
    rw [(hs.2 i hi).2.1, (hs.2 j hj).2.1]
  · intro i hi
    rw [(hs.2 i hi).2.1]

/-- C5: in every successful `step` with valid, duplicate-free agent
references, a producer agent's action supplies exactly the agent's
capacity as it was at entry to the step, and the agent's cell at exit
holds the entry capacity plus that same action's invest entry for the
agent's tech. -/
theorem c5_supply_and_capacity (world : WorldState) (heap : Heap)
    (refs : List Nat) (i : Nat)
    (hsome : (step world heap refs).isSome = true)
    (hids : ((derefs heap refs).map (fun a => a.id)).Nodup)
    (hvalid : ∀ r ∈ refs, r < heap.length)
    (hi : i < refs.length)
    (hty : (heap.getD (refs.getD i 0) default).agent_type
          = "ElectricityProducer"
        ∨ (heap.getD (refs.getD i 0) default).agent_type
          = "HydrogenProducer") :
    getD ((stepRes world heap refs).2.2.2.getD i default).supply
        ((heap.getD (refs.getD i 0) default).tech.getD "") 0
      = (heap.getD (refs.getD i 0) default).capacity
    ∧ ((stepRes world heap refs).2.1.getD (refs.getD i 0) default).capacity
      = (heap.getD (refs.getD i 0) default).capacity
        + getD ((stepRes world heap refs).2.2.2.getD i default).invest
            ((heap.getD (refs.getD i 0) default).tech.getD "") 0 := by
  obtain ⟨out, heq⟩ := Option.isSome_iff_exists.mp hsome
  obtain ⟨actions, hm, -, -, hheap, -, hacts⟩ := step_spec heq
  have hout : stepRes world heap refs = out := by simp [stepRes, heq]
  rw [hout]
  obtain ⟨hlen, hidx, hmap⟩ := mapM_decide_spec hm
  have hlen2 : (derefs heap refs).length = refs.length := by
    simp [derefs]
  set r : Nat := refs.getD i 0 with hr
  set ag : AgentState := heap.getD r default with hag
  have hagents : (derefs heap refs).getD i default = ag := derefs_getD heap refs i hi
  have hia : i < actions.length := by
    rw [hlen, hlen2]
    exact hi
  have hdec : decide ag world = some (actions.getD i default) := by
    rw [← hagents]
    exact hidx i (by rw [hlen2]; exact hi)
  have hact : actions.getD i default = producer_action ag world := by
    have := decide_producer world hty
    rw [this] at hdec
    exact (Option.some.inj hdec).symm
  have htraced : out.2.2.2.getD i default
      = { actions.getD i default with
          state_before := dictOfAgents (derefs heap refs)
            (actions.getD i default).agent_id,
          state_after := findAgent
            (derefs (updateCapacities actions heap refs) refs)
            (actions.getD i default).agent_id } := by
    rw [hacts]
    exact map_getD_of_lt _ actions i default default hia
  constructor
  · rw [htraced, hact]
    simp [producer_action, getD]
  · have hrmem : r ∈ refs := getD_mem_of_lt refs i 0 hi
    have hrlt : r < heap.length := hvalid r hrmem
    have hnodup_refs : refs.Nodup := by
      have h2 : ((derefs heap refs).map (fun a => a.id))
          = refs.map (fun x => (heap.getD x default).id) := by
        simp [derefs, List.map_map]
      rw [h2] at hids
      exact List.Nodup.of_map _ hids
    have hget : heap[r]? = some ag := by
      rw [hag, List.getD_eq_getElem?_getD, List.getElem?_eq_getElem hrlt]
      rfl
    have hcell := updateCapacities_getElem?_mem actions refs heap r ag
      hnodup_refs hrmem hget
    have hfind : findAction actions ag.id = some (actions.getD i default) := by
      have hidag : (actions.getD i default).agent_id = ag.id := by
        rw [hact]
        rfl
      have hnd : (actions.map (fun a => a.agent_id)).Nodup := by
        rw [hmap]
        have h2 : ((derefs heap refs).map (fun a => a.id))
            = (derefs heap refs).map (fun a => a.id) := rfl
        exact hids
      rw [← hidag]
      exact findAction_getD actions i hia hnd
    have hic := investedCell_producer hfind hty
    rw [hheap, List.getD_eq_getElem?_getD, hcell, hic, htraced]
    rfl

/-- A start world for concrete `simulate` runs: t = 2000, default-style
prices and demand, empty tables. -/
def w0run : WorldState :=
  { t := 2000, prices := mkPrices 50 3 0, demand := mkDemand 100 10,
    policy := [], assumptions := [] }

/-- Witness for C4: a two-element `years` list whose literal values are far
from contiguous still yields a two-entry history. -/
theorem c4_witness : (simHist w0run [] [] [2024, 2030]).length = 2 :=
  (c4_time_advance w0run [] [] [2024, 2030] rfl).1

/-- Witness for C7: the price floor at the first entry of a concrete run. -/
theorem c7_witness :
    0 ≤ ((simHist w0run [] [] [2024]).getD 0 default).1.prices "electricity"
    ∧ 0 ≤ ((simHist w0run [] [] [2024]).getD 0 default).1.prices "hydrogen" :=
  c7_price_floor w0run [] [] [2024] 0 rfl (by decide)

/-- Witness for C10: the first history entry of a concrete run carries the
initial reference list. -/
theorem c10_witness :
    ((simHist w0run [] [] [2024]).getD 0 default).2.1 = ([] : List Nat) :=
  (c10_history_aliasing w0run [] [] [2024] rfl).1 0 (by decide)

/-- Witness for C5: one concrete electricity producer in a one-step run
supplies its entry capacity, and its cell gains the invest entry. -/
theorem c5_witness :
    getD ((stepRes c2World [c2Agent] [0]).2.2.2.getD 0 default).supply
        "electricity" 0 = 100
    ∧ ((stepRes c2World [c2Agent] [0]).2.1.getD 0 default).capacity
      = 100 + getD ((stepRes c2World [c2Agent] [0]).2.2.2.getD 0 default).invest
          "electricity" 0 :=
  c5_supply_and_capacity c2World [c2Agent] [0] 0 rfl (by decide) (by decide)
    (by decide) (Or.inl rfl)

end AgentZero
